import Mathlib

/-!
Shallow embedding of `src/aim_core.py` (Adaptive Integration Middleware core).

Python dictionaries are modelled as association lists that keep insertion
order, with CPython assignment semantics: assigning to an existing key keeps
its position and replaces the value, assigning to a new key appends it at the
end. Metadata dictionaries are association lists from strings to `PyVal`.
The wall-clock timestamp produced by `time.time` is an input from the
environment and is threaded in as a `Nat` parameter `now`. Exceptions that
cannot occur in the pure model (list append, dict assignment) disappear; the
explicit `raise ValueError` in `ModuleRegistry.register` becomes an
`Except.error` result paired with the unchanged registry state.
-/

namespace Aim

/-- A Python value stored in a metadata or metrics dictionary. -/
inductive PyVal where
  | str : String → PyVal
  | strList : List String → PyVal
deriving DecidableEq, Repr

/-- A Python dict from strings to values, in insertion order. -/
abbrev PyDict := List (String × PyVal)

/-- The keys of a dict, in insertion order. -/
def dictKeys (m : List (String × α)) : List String := m.map Prod.fst

/-- CPython dict assignment `m[k] = v`: an existing key keeps its position and
gets the new value; a new key is appended at the end. -/
def dictSet (m : List (String × α)) (k : String) (v : α) : List (String × α) :=
  if m.any (fun p => decide (p.1 = k)) then
    m.map (fun p => if p.1 = k then (p.1, v) else p)
  else
    m ++ [(k, v)]

/-- Dict lookup `m[k]` (first entry with the key, `none` when absent); on
dicts with distinct keys this is the value associated with `k`. -/
def dictGet (m : List (String × α)) (k : String) : Option α :=
  match m with
  | [] => none
  | p :: t => if p.1 = k then some p.2 else dictGet t k

/-- Module metadata: the dict passed to `register_module`. -/
abbrev Metadata := PyDict

/-- One entry of `IntegrationAnalyzer.interactions` as built in
`log_interaction`. -/
structure InteractionRecord where
  source : String
  target : String
  timestamp : Nat
  metrics : PyDict
deriving DecidableEq, Repr

/-- State of `IntegrationAnalyzer`: the list `self.interactions`. -/
structure IntegrationAnalyzer where
  interactions : List InteractionRecord
deriving DecidableEq, Repr

/-- `IntegrationAnalyzer.__init__`: the log starts empty. -/
def IntegrationAnalyzer.init : IntegrationAnalyzer := ⟨[]⟩

/-- `IntegrationAnalyzer.log_interaction`: builds the record (with
`metrics or` the empty dict, which is the empty dict when `metrics` is `None`
or empty, i.e. `Option.getD` on lists) and appends it to the log. The
timestamp comes from the environment as `now`. -/
def IntegrationAnalyzer.log_interaction (self : IntegrationAnalyzer)
    (source target : String) (metrics : Option PyDict) (now : Nat) :
    IntegrationAnalyzer :=
  { self with
    interactions := self.interactions ++
      [{ source := source, target := target, timestamp := now,
         metrics := metrics.getD [] }] }

/-- Modelled from the spec: `snapshot_interactions` does not appear in
`src/aim_core.py` (only the backing list `interactions` does); the spec says
it is a read-only view of all records in append order. -/
def IntegrationAnalyzer.snapshot (self : IntegrationAnalyzer) :
    List InteractionRecord := self.interactions

/-- State of `MiddlewareManager`: the module dict and the analyzer. -/
structure MiddlewareManager where
  modules : List (String × Metadata)
  analytics : IntegrationAnalyzer
deriving DecidableEq, Repr

/-- `MiddlewareManager.__init__`: empty module dict, fresh analyzer. -/
def MiddlewareManager.init : MiddlewareManager := ⟨[], .init⟩

/-- `MiddlewareManager.register_module`: `self.modules[module_id] = metadata`,
then return `True`. The `except` branch is unreachable in the pure model, so
the result is always `true`. -/
def MiddlewareManager.register_module (self : MiddlewareManager)
    (module_id : String) (metadata : Metadata) : MiddlewareManager × Bool :=
  ({ self with modules := dictSet self.modules module_id metadata }, true)

/-- The loop body test of `discover_module`:
`all(q in metadata for q in query)`, where Python `in` on a dict tests key
membership. -/
def hasAllQueryKeys (metadata : Metadata) (query : List String) : Bool :=
  query.all (fun q => (dictKeys metadata).contains q)

/-- `MiddlewareManager.discover_module`: iterate `self.modules.items()` in
insertion order, keep the ids whose metadata contains every key of the query.
The state is returned unchanged because the method performs no mutation. -/
def MiddlewareManager.discover_module (self : MiddlewareManager)
    (query : List String) : MiddlewareManager × List String :=
  (self, (self.modules.filter (fun p => hasAllQueryKeys p.2 query)).map Prod.fst)

/-- `MiddlewareManager.route_request`: delegates to
`self.analytics.log_interaction(source, target)` (metrics defaulting to
`None`) and returns `True`; the `except` branch is unreachable in the pure
model. -/
def MiddlewareManager.route_request (self : MiddlewareManager)
    (source target : String) (now : Nat) : MiddlewareManager × Bool :=
  ({ self with analytics := self.analytics.log_interaction source target none now },
   true)

/-- A module class as seen through `getattr` in `ModuleRegistry`: each
attribute is either absent (`none`) or present with a value. A `module_id`
attribute present with Python `None` is indistinguishable from an absent one
through `getattr(cls, ..., None)`, so both are `none` here. -/
structure ModuleDescriptor where
  module_id : Option String
  capabilities : Option (List String)
  requirements : Option (List String)
  version : Option String
deriving DecidableEq, Repr

/-- State of `ModuleRegistry`: its `MiddlewareManager`. -/
structure ModuleRegistry where
  aim : MiddlewareManager
deriving DecidableEq, Repr

/-- `ModuleRegistry.__init__`. -/
def ModuleRegistry.init : ModuleRegistry := ⟨.init⟩

/-- `ModuleRegistry._get_capabilities`: `getattr(cls, 'capabilities', [])`. -/
def ModuleRegistry.get_capabilities (module_class : ModuleDescriptor) :
    List String := module_class.capabilities.getD []

/-- `ModuleRegistry._get_requirements`: `getattr(cls, 'requirements', [])`. -/
def ModuleRegistry.get_requirements (module_class : ModuleDescriptor) :
    List String := module_class.requirements.getD []

/-- `ModuleRegistry._build_metadata`: the dict literal with keys
`capabilities`, `requirements` and `version`, the last one defaulting to the
literal string `1.0` when the descriptor has no version attribute. -/
def ModuleRegistry.build_metadata (module_class : ModuleDescriptor) : Metadata :=
  [("capabilities", PyVal.strList (ModuleRegistry.get_capabilities module_class)),
   ("requirements", PyVal.strList (ModuleRegistry.get_requirements module_class)),
   ("version", PyVal.str (module_class.version.getD "1.0"))]

/-- `ModuleRegistry.register`: read `module_id` via `getattr` with default
`None`; if it is falsy (`None` or the empty string) raise `ValueError`, which
the `except` clause re-raises, leaving the registry unchanged. Otherwise
build the metadata and register it with the manager, returning the class.
The raised error is modelled as an `Except.error` paired with the unchanged
state. -/
def ModuleRegistry.register (self : ModuleRegistry)
    (module_class : ModuleDescriptor) :
    ModuleRegistry × Except String ModuleDescriptor :=
  match module_class.module_id with
  | none => (self, Except.error "Module must have a module_id attribute.")
  | some module_id =>
    if module_id = "" then
      (self, Except.error "Module must have a module_id attribute.")
    else
      let metadata := ModuleRegistry.build_metadata module_class
      ({ aim := (self.aim.register_module module_id metadata).1 },
       Except.ok module_class)

/-- A state of the manager reached from `self` by a sequence of successful
`register_module` calls. -/
def MiddlewareManager.applyRegs (self : MiddlewareManager)
    (regs : List (String × Metadata)) : MiddlewareManager :=
  regs.foldl (fun s r => (s.register_module r.1 r.2).1) self

/-- One call into the manager or the analyzer, for reasoning about whole
call sequences. -/
inductive AimOp where
  | register (module_id : String) (metadata : Metadata)
  | discover (query : List String)
  | route (source target : String) (now : Nat)
  | append (source target : String) (metrics : Option PyDict) (now : Nat)
deriving DecidableEq, Repr

/-- Effect of one call on the manager state. `append` is a direct call to
`analytics.log_interaction`, as the spec's `append_interaction`. -/
def stepOp (self : MiddlewareManager) : AimOp → MiddlewareManager
  | .register module_id metadata => (self.register_module module_id metadata).1
  | .discover query => (self.discover_module query).1
  | .route source target now => (self.route_request source target now).1
  | .append source target metrics now =>
      { self with analytics := self.analytics.log_interaction source target metrics now }

/-- Run a sequence of calls. -/
def MiddlewareManager.runOps (self : MiddlewareManager) (ops : List AimOp) :
    MiddlewareManager := ops.foldl stepOp self

/-- The interaction records a single call appends to the log. -/
def opRecords : AimOp → List InteractionRecord
  | .route source target now => [⟨source, target, now, []⟩]
  | .append source target metrics now => [⟨source, target, now, metrics.getD []⟩]
  | _ => []

/-- Whether a call is one of the log-writing calls (`route` or `append`). -/
def opIsLogCall : AimOp → Bool
  | .route _ _ _ => true
  | .append _ _ _ _ => true
  | _ => false

/-! ### Association-list lemmas for the dict model -/

theorem any_key_eq (m : List (String × α)) (k : String) :
    (m.any fun p => decide (p.1 = k)) = true ↔ k ∈ dictKeys m := by
  simp [dictKeys, List.any_eq_true, List.mem_map]

theorem dictSet_of_not_mem {m : List (String × α)} {k : String} (v : α)
    (h : k ∉ dictKeys m) : dictSet m k v = m ++ [(k, v)] := by
  have hf : (m.any fun p => decide (p.1 = k)) = false := by
    rw [← Bool.not_eq_true, any_key_eq]
    exact h
  simp [dictSet, hf]

theorem dictSet_of_mem {m : List (String × α)} {k : String} (v : α)
    (h : k ∈ dictKeys m) :
    dictSet m k v = m.map fun p => if p.1 = k then (p.1, v) else p := by
  simp [dictSet, (any_key_eq m k).mpr h]

theorem dictKeys_dictSet (m : List (String × α)) (k : String) (v : α) :
    dictKeys (dictSet m k v) =
      if k ∈ dictKeys m then dictKeys m else dictKeys m ++ [k] := by
  by_cases h : k ∈ dictKeys m
  · rw [dictSet_of_mem v h, if_pos h]
    simp only [dictKeys, List.map_map]
    refine List.map_congr_left ?_
    intro p _
    by_cases hp : p.1 = k <;> simp [hp]
  · rw [dictSet_of_not_mem v h, if_neg h]
    simp [dictKeys]

theorem nodup_dictKeys_dictSet {m : List (String × α)} {k : String} (v : α)
    (h : (dictKeys m).Nodup) : (dictKeys (dictSet m k v)).Nodup := by
  rw [dictKeys_dictSet]
  by_cases hk : k ∈ dictKeys m
  · rwa [if_pos hk]
  · rw [if_neg hk]
    simp [List.nodup_append, h, hk]

theorem dictGet_eq_none_of_not_mem {m : List (String × α)} {k : String}
    (h : k ∉ dictKeys m) : dictGet m k = none := by
  induction m with
  | nil => rfl
  | cons p t ih =>
    simp only [dictKeys, List.map_cons, List.mem_cons] at h
    push_neg at h
    simp [dictGet, Ne.symm h.1, ih h.2]

theorem dictGet_append_single {m : List (String × α)} {k : String} (v : α)
    (h : k ∉ dictKeys m) : dictGet (m ++ [(k, v)]) k = some v := by
  induction m with
  | nil => simp [dictGet]
  | cons p t ih =>
    simp only [dictKeys, List.map_cons, List.mem_cons] at h
    push_neg at h
    simp [dictGet, Ne.symm h.1, ih h.2]

theorem dictGet_append_ne {m : List (String × α)} {k k' : String} (v : α)
    (h : k' ≠ k) : dictGet (m ++ [(k, v)]) k' = dictGet m k' := by
  induction m with
  | nil => simp [dictGet, Ne.symm h]
  | cons p t ih =>
    by_cases hp : p.1 = k'
    · simp [dictGet, hp]
    · simp [dictGet, hp, ih]

theorem dictGet_map_set (m : List (String × α)) (k : String) (v : α) :
    dictGet (m.map fun p => if p.1 = k then (p.1, v) else p) k
      = if k ∈ dictKeys m then some v else none := by
  induction m with
  | nil => simp [dictGet, dictKeys]
  | cons p t ih =>
    by_cases hp : p.1 = k
    · subst hp
      simp [dictGet, dictKeys]
    · rw [List.map_cons, if_neg hp]
      simp only [dictGet, if_neg hp, ih, dictKeys, List.map_cons,
        List.mem_cons]
      by_cases hk : k ∈ dictKeys t
      · simp only [dictKeys] at hk
        simp [hk]
      · simp only [dictKeys] at hk
        simp [hk, Ne.symm hp]

theorem dictGet_map_set_ne (m : List (String × α)) {k k' : String} (v : α)
    (h : k' ≠ k) :
    dictGet (m.map fun p => if p.1 = k then (p.1, v) else p) k'
      = dictGet m k' := by
  induction m with
  | nil => simp
  | cons p t ih =>
    by_cases hp : p.1 = k
    · subst hp
      simp [dictGet, Ne.symm h, ih]
    · rw [List.map_cons, if_neg hp]
      by_cases hk : p.1 = k'
      · simp [dictGet, hk]
      · simp [dictGet, hk, ih]

theorem dictGet_dictSet_self (m : List (String × α)) (k : String) (v : α) :
    dictGet (dictSet m k v) k = some v := by
  by_cases h : k ∈ dictKeys m
  · rw [dictSet_of_mem v h, dictGet_map_set, if_pos h]
  · rw [dictSet_of_not_mem v h, dictGet_append_single v h]

theorem dictGet_dictSet_ne (m : List (String × α)) {k k' : String} (v : α)
    (h : k' ≠ k) : dictGet (dictSet m k v) k' = dictGet m k' := by
  by_cases hm : k ∈ dictKeys m
  · rw [dictSet_of_mem v hm, dictGet_map_set_ne m v h]
  · rw [dictSet_of_not_mem v hm, dictGet_append_ne v h]

theorem dictSet_entry_key (m : List (String × α)) (k : String) (v : α) :
    ∀ p ∈ dictSet m k v, p.1 = k → p.2 = v := by
  intro p hp hk
  by_cases hm : k ∈ dictKeys m
  · rw [dictSet_of_mem v hm] at hp
    obtain ⟨q, _, rfl⟩ := List.mem_map.mp hp
    by_cases hq : q.1 = k
    · simp [hq]
    · simp [if_neg hq] at hk
      exact absurd hk hq
  · rw [dictSet_of_not_mem v hm] at hp
    rcases List.mem_append.mp hp with h1 | h1
    · exact absurd (hk ▸ List.mem_map_of_mem Prod.fst h1) hm
    · simp at h1
      rw [h1]

theorem mem_iff_dictGet_of_nodup {m : List (String × α)}
    (h : (dictKeys m).Nodup) (k : String) (v : α) :
    (k, v) ∈ m ↔ dictGet m k = some v := by
  induction m with
  | nil => simp [dictGet]
  | cons p t ih =>
    simp only [dictKeys, List.map_cons, List.nodup_cons] at h
    constructor
    · intro hm
      rcases List.mem_cons.mp hm with h1 | h1
      · rw [← h1]
        simp [dictGet]
      · have hk : k ∈ dictKeys t := List.mem_map_of_mem Prod.fst h1
        have hne : p.1 ≠ k := by
          intro he
          exact h.1 (he ▸ hk)
        simp [dictGet, hne, (ih h.2).mp h1]
    · intro hl
      by_cases hk : p.1 = k
      · subst hk
        simp [dictGet] at hl
        exact List.mem_cons.mpr (Or.inl (Prod.ext rfl hl.symm))
      · simp [dictGet, hk] at hl
        exact List.mem_cons_of_mem p ((ih h.2).mpr hl)

theorem mem_dictKeys_dictSet_self (m : List (String × α)) (k : String) (v : α) :
    k ∈ dictKeys (dictSet m k v) := by
  rw [dictKeys_dictSet]
  by_cases h : k ∈ dictKeys m
  · rw [if_pos h]
    exact h
  · simp [h]

/-! ### Discovery and reachability lemmas -/

theorem hasAllQueryKeys_iff (md : Metadata) (query : List String) :
    hasAllQueryKeys md query = true ↔ ∀ q ∈ query, q ∈ dictKeys md := by
  simp [hasAllQueryKeys, List.all_eq_true, List.elem_iff]

theorem mem_discover_iff (self : MiddlewareManager) (query : List String)
    (id : String) :
    id ∈ (self.discover_module query).2 ↔
      ∃ md, (id, md) ∈ self.modules ∧ hasAllQueryKeys md query = true := by
  simp only [MiddlewareManager.discover_module, List.mem_map, List.mem_filter]
  constructor
  · rintro ⟨p, ⟨hp, hq⟩, rfl⟩
    exact ⟨p.2, hp, hq⟩
  · rintro ⟨md, hmem, hq⟩
    exact ⟨(id, md), ⟨hmem, hq⟩, rfl⟩

theorem discover_empty_query (self : MiddlewareManager) :
    (self.discover_module []).2 = dictKeys self.modules := by
  simp only [MiddlewareManager.discover_module, hasAllQueryKeys, List.all_nil,
    List.filter_true, dictKeys]

theorem applyRegs_cons (self : MiddlewareManager) (r : String × Metadata)
    (rs : List (String × Metadata)) :
    self.applyRegs (r :: rs) = ((self.register_module r.1 r.2).1).applyRegs rs :=
  rfl

theorem applyRegs_modules_nodup (self : MiddlewareManager)
    (h : (dictKeys self.modules).Nodup) (regs : List (String × Metadata)) :
    (dictKeys (self.applyRegs regs).modules).Nodup := by
  induction regs generalizing self with
  | nil => exact h
  | cons r rs ih =>
    rw [applyRegs_cons]
    exact ih _ (nodup_dictKeys_dictSet r.2 h)

/-! ### Call-sequence lemmas for the interaction log -/

/-- The records a whole call sequence appends to the log, in call order. -/
def opsRecords : List AimOp → List InteractionRecord
  | [] => []
  | op :: rest => opRecords op ++ opsRecords rest

theorem stepOp_interactions (self : MiddlewareManager) (op : AimOp) :
    (stepOp self op).analytics.interactions
      = self.analytics.interactions ++ opRecords op := by
  cases op <;>
    simp [stepOp, MiddlewareManager.register_module,
      MiddlewareManager.discover_module, MiddlewareManager.route_request,
      IntegrationAnalyzer.log_interaction, opRecords]

theorem stepOp_modules_of_no_register (self : MiddlewareManager) (op : AimOp)
    (h : ∀ id md, op ≠ .register id md) : (stepOp self op).modules = self.modules := by
  cases op with
  | register id md => exact absurd rfl (h id md)
  | discover q => rfl
  | route s t now => rfl
  | append s t m now => rfl

theorem runOps_interactions (self : MiddlewareManager) (ops : List AimOp) :
    (self.runOps ops).analytics.interactions
      = self.analytics.interactions ++ opsRecords ops := by
  induction ops generalizing self with
  | nil => simp [MiddlewareManager.runOps, opsRecords]
  | cons op rest ih =>
    have hstep : self.runOps (op :: rest) = (stepOp self op).runOps rest := rfl
    rw [hstep, ih, stepOp_interactions, opsRecords, List.append_assoc]

theorem opsRecords_length (ops : List AimOp)
    (h : ∀ op ∈ ops, opIsLogCall op = true) :
    (opsRecords ops).length = ops.length := by
  induction ops with
  | nil => rfl
  | cons op rest ih =>
    have hop : opIsLogCall op = true := h op (List.mem_cons_self op rest)
    have h1 : (opRecords op).length = 1 := by
      cases op <;> simp_all [opIsLogCall, opRecords]
    simp [opsRecords, h1, ih fun o ho => h o (List.mem_cons_of_mem op ho),
      Nat.add_comm]

/-! ### The claims -/

/-- C1: on every state reached by successful registrations, `discover_module`
returns exactly the identifiers whose metadata contains every key of the
query (key presence, not key-value match), listed in registration order
(a sublist of the module map in insertion order); the empty query matches
every registered module, and after `register_module` succeeds `discover_module`
with the empty query includes the new identifier. -/
theorem discover_returns_ids_with_all_query_keys
    (regs : List (String × Metadata)) (query : List String) :
    (∀ id, id ∈ ((MiddlewareManager.init.applyRegs regs).discover_module query).2 ↔
        ∃ md, dictGet (MiddlewareManager.init.applyRegs regs).modules id = some md ∧
          ∀ q ∈ query, q ∈ dictKeys md)
    ∧ List.Sublist ((MiddlewareManager.init.applyRegs regs).discover_module query).2
        (dictKeys (MiddlewareManager.init.applyRegs regs).modules)
    ∧ ((MiddlewareManager.init.applyRegs regs).discover_module []).2
        = dictKeys (MiddlewareManager.init.applyRegs regs).modules
    ∧ ∀ id md,
        ((MiddlewareManager.init.applyRegs regs).register_module id md).2 = true ∧
        id ∈ ((((MiddlewareManager.init.applyRegs regs).register_module id md).1).discover_module []).2 := by
  have hnd : (dictKeys (MiddlewareManager.init.applyRegs regs).modules).Nodup :=
    applyRegs_modules_nodup _ (by simp [MiddlewareManager.init, dictKeys]) regs
  refine ⟨?_, ?_, discover_empty_query _, ?_⟩
  · intro id
    rw [mem_discover_iff]
    constructor
    · rintro ⟨md, hmem, hall⟩
      exact ⟨md, (mem_iff_dictGet_of_nodup hnd id md).mp hmem,
        (hasAllQueryKeys_iff md query).mp hall⟩
    · rintro ⟨md, hget, hall⟩
      exact ⟨md, (mem_iff_dictGet_of_nodup hnd id md).mpr hget,
        (hasAllQueryKeys_iff md query).mpr hall⟩
  · exact List.Sublist.map Prod.fst
      (List.filter_sublist (MiddlewareManager.init.applyRegs regs).modules)
  · intro id md
    refine ⟨rfl, ?_⟩
    rw [discover_empty_query]
    exact mem_dictKeys_dictSet_self _ id md

/-- C2: for all identifiers `a` and `b`, registered or not, `route_request`
appends exactly one interaction record with source `a` and target `b` to the
log and returns `true` (the only `false` path is an exception in the append,
which cannot occur in the pure model). -/
theorem route_request_appends_one_record (self : MiddlewareManager)
    (a b : String) (now : Nat) :
    (self.route_request a b now).2 = true ∧
    (self.route_request a b now).1.analytics.interactions =
      self.analytics.interactions ++
        [{ source := a, target := b, timestamp := now, metrics := [] }] :=
  ⟨rfl, rfl⟩

/-- C3: registering the same identifier twice leaves exactly the second
metadata associated with it: the lookup yields the second record, and every
module-map entry carrying that identifier holds the second record, so nothing
of the first survives. -/
theorem register_twice_overwrites (self : MiddlewareManager) (id : String)
    (m1 m2 : Metadata) :
    dictGet (((self.register_module id m1).1.register_module id m2).1).modules id
        = some m2 ∧
    ∀ p ∈ (((self.register_module id m1).1.register_module id m2).1).modules,
      p.1 = id → p.2 = m2 :=
  ⟨dictGet_dictSet_self _ id m2, dictSet_entry_key _ id m2⟩

/-- C4: `build_metadata` yields the descriptor's capabilities (else the empty
sequence), the descriptor's requirements (else the empty sequence), and the
descriptor's version (else the literal string 1.0). -/
theorem build_metadata_fields (mc : ModuleDescriptor) :
    dictGet (ModuleRegistry.build_metadata mc) "capabilities"
        = some (PyVal.strList (match mc.capabilities with
            | some c => c
            | none => []))
    ∧ dictGet (ModuleRegistry.build_metadata mc) "requirements"
        = some (PyVal.strList (match mc.requirements with
            | some r => r
            | none => []))
    ∧ dictGet (ModuleRegistry.build_metadata mc) "version"
        = some (PyVal.str (match mc.version with
            | some v => v
            | none => "1.0")) := by
  refine ⟨?_, ?_, ?_⟩
  · cases hc : mc.capabilities <;>
      simp [ModuleRegistry.build_metadata, ModuleRegistry.get_capabilities,
        ModuleRegistry.get_requirements, dictGet, hc]
  · cases hr : mc.requirements <;>
      simp [ModuleRegistry.build_metadata, ModuleRegistry.get_capabilities,
        ModuleRegistry.get_requirements, dictGet, hr]
  · cases hv : mc.version <;>
      simp [ModuleRegistry.build_metadata, ModuleRegistry.get_capabilities,
        ModuleRegistry.get_requirements, dictGet, hv]

/-- C5: registering a descriptor without an identifier attribute fails with
the missing-identifier error, the error propagates to the caller (an
`Except.error`, not a boolean), and the registry state is unchanged, so no
module is registered. -/
theorem register_missing_identifier (self : ModuleRegistry)
    (mc : ModuleDescriptor) (h : mc.module_id = none) :
    self.register mc
      = (self, Except.error "Module must have a module_id attribute.") := by
  simp [ModuleRegistry.register, h]

/-- C6: a sequence of calls extends the interaction log by exactly one record
per `route`/`append` call, in call order, and never removes, mutates or
reorders the records already present (the old snapshot stays a prefix); when
every call of the sequence is a log-writing call, the snapshot after N calls
has exactly N more records. -/
theorem snapshot_after_call_sequence (self : MiddlewareManager)
    (ops : List AimOp) :
    ((self.runOps ops).analytics.snapshot
        = self.analytics.snapshot ++ opsRecords ops)
    ∧ ((∀ op ∈ ops, opIsLogCall op = true) →
        ((self.runOps ops).analytics.snapshot).length
          = (self.analytics.snapshot).length + ops.length) := by
  refine ⟨runOps_interactions self ops, fun h => ?_⟩
  rw [IntegrationAnalyzer.snapshot, runOps_interactions self ops,
    List.length_append, opsRecords_length ops h]
  rfl

/-- C7: for a registered module, any query all of whose keys occur in the
module's metadata discovers it, and any query containing a key absent from
the module's metadata excludes it. -/
theorem discover_subset_and_exclusion (regs : List (String × Metadata))
    (id : String) (md : Metadata) (query query' : List String) (k : String)
    (hmd : dictGet (MiddlewareManager.init.applyRegs regs).modules id = some md) :
    ((∀ q ∈ query, q ∈ dictKeys md) →
        id ∈ ((MiddlewareManager.init.applyRegs regs).discover_module query).2)
    ∧ (k ∉ dictKeys md → k ∈ query' →
        id ∉ ((MiddlewareManager.init.applyRegs regs).discover_module query').2) := by
  have hnd : (dictKeys (MiddlewareManager.init.applyRegs regs).modules).Nodup :=
    applyRegs_modules_nodup _ (by simp [MiddlewareManager.init, dictKeys]) regs
  have hmem : (id, md) ∈ (MiddlewareManager.init.applyRegs regs).modules :=
    (mem_iff_dictGet_of_nodup hnd id md).mpr hmd
  constructor
  · intro hq
    exact (mem_discover_iff _ query id).mpr
      ⟨md, hmem, (hasAllQueryKeys_iff md query).mpr hq⟩
  · intro hk hkq hdisc
    obtain ⟨md', hmem', hall⟩ := (mem_discover_iff _ query' id).mp hdisc
    have : md' = md := by
      have h1 := (mem_iff_dictGet_of_nodup hnd id md').mp hmem'
      rw [hmd] at h1
      exact (Option.some_injective _ h1).symm
    subst this
    exact hk ((hasAllQueryKeys_iff md' query').mp hall k hkq)

/-- C8: each operation touches only its own state: `register_module` leaves
the analyzer and every other identifier's entry unchanged, `discover_module`
returns the state unchanged, and `route_request` leaves the module map
unchanged. -/
theorem operations_touch_only_own_state (self : MiddlewareManager)
    (id : String) (md : Metadata) (k : String) (hk : k ≠ id)
    (q : List String) (a b : String) (now : Nat) :
    ((self.register_module id md).1.analytics = self.analytics)
    ∧ (dictGet (self.register_module id md).1.modules k = dictGet self.modules k)
    ∧ ((self.discover_module q).1 = self)
    ∧ ((self.route_request a b now).1.modules = self.modules) :=
  ⟨rfl, dictGet_dictSet_ne self.modules md hk, rfl, rfl⟩

/-- C9: the decorator-style registration also raises when the `module_id`
attribute is present but falsy (the empty string; an attribute present with
Python `None` reads back as `none` through `getattr` and is covered by the
absent case): the error propagates and the registry state is unchanged. -/
theorem register_falsy_identifier (self : ModuleRegistry)
    (mc : ModuleDescriptor) (h : mc.module_id = some "") :
    self.register mc
      = (self, Except.error "Module must have a module_id attribute.") := by
  simp [ModuleRegistry.register, h]

/-- C10: re-registering an identifier keeps its original position in the
module map: after registering `id`, then a distinct `id2`, then `id` again,
discovery with the empty query lists `id` before `id2`, so discovery order
reflects the first registration of each identifier. -/
theorem reregistration_keeps_first_position (id id2 : String)
    (m1 m2 m3 : Metadata) (h : id ≠ id2) :
    ((((MiddlewareManager.init.register_module id m1).1.register_module
        id2 m2).1.register_module id m3).1.discover_module []).2 = [id, id2] := by
  have h1 : dictSet ([] : List (String × Metadata)) id m1 = [(id, m1)] := rfl
  have h2 : dictSet [(id, m1)] id2 m2 = [(id, m1), (id2, m2)] := by
    rw [dictSet_of_not_mem m2 (by simp [dictKeys]; exact Ne.symm h)]
    rfl
  have h3 : dictSet [(id, m1), (id2, m2)] id m3 = [(id, m3), (id2, m2)] := by
    rw [dictSet_of_mem m3 (by simp [dictKeys])]
    simp [Ne.symm h]
  rw [discover_empty_query]
  show dictKeys (dictSet (dictSet (dictSet [] id m1) id2 m2) id m3) = [id, id2]
  rw [h1, h2, h3]
  rfl

/-! ### Concrete witnesses -/

theorem discover_returns_ids_with_all_query_keys_witness :
    "vision" ∈ ((MiddlewareManager.init.applyRegs
        [("vision", [("capabilities", PyVal.strList ["detect"])]),
         ("nlp", [("capabilities", PyVal.strList ["summarize"])])]).discover_module
        ["capabilities"]).2 :=
  ((discover_returns_ids_with_all_query_keys
      [("vision", [("capabilities", PyVal.strList ["detect"])]),
       ("nlp", [("capabilities", PyVal.strList ["summarize"])])]
      ["capabilities"]).1 "vision").mpr
    ⟨[("capabilities", PyVal.strList ["detect"])], by decide, by decide⟩

theorem route_request_appends_one_record_witness :
    (MiddlewareManager.init.route_request "a" "b" 7).2 = true ∧
    (MiddlewareManager.init.route_request "a" "b" 7).1.analytics.interactions =
      MiddlewareManager.init.analytics.interactions ++
        [{ source := "a", target := "b", timestamp := 7, metrics := [] }] :=
  route_request_appends_one_record MiddlewareManager.init "a" "b" 7

theorem register_twice_overwrites_witness :
    dictGet (((MiddlewareManager.init.register_module "m"
        [("x", PyVal.str "1")]).1.register_module "m"
        [("y", PyVal.str "2")]).1).modules "m"
      = some [("y", PyVal.str "2")] :=
  (register_twice_overwrites MiddlewareManager.init "m"
    [("x", PyVal.str "1")] [("y", PyVal.str "2")]).1

theorem build_metadata_fields_witness :
    dictGet (ModuleRegistry.build_metadata
        ⟨some "vision", some ["detect"], some ["gpu"], some "2.0"⟩) "version"
      = some (PyVal.str "2.0") :=
  (build_metadata_fields ⟨some "vision", some ["detect"], some ["gpu"], some "2.0"⟩).2.2

theorem register_missing_identifier_witness :
    ModuleRegistry.init.register ⟨none, none, none, none⟩
      = (ModuleRegistry.init,
         Except.error "Module must have a module_id attribute.") :=
  register_missing_identifier ModuleRegistry.init ⟨none, none, none, none⟩ rfl

theorem snapshot_after_call_sequence_witness :
    ((MiddlewareManager.init.runOps
        [AimOp.route "a" "b" 0, AimOp.append "c" "d" none 1]).analytics.snapshot).length
      = (MiddlewareManager.init.analytics.snapshot).length + 2 :=
  (snapshot_after_call_sequence MiddlewareManager.init
    [AimOp.route "a" "b" 0, AimOp.append "c" "d" none 1]).2 (by decide)

theorem discover_subset_and_exclusion_witness :
    "vision" ∈ ((MiddlewareManager.init.applyRegs
        [("vision", [("capabilities", PyVal.strList ["detect"]),
                     ("version", PyVal.str "1.0")])]).discover_module
        ["capabilities"]).2
    ∧ "vision" ∉ ((MiddlewareManager.init.applyRegs
        [("vision", [("capabilities", PyVal.strList ["detect"]),
                     ("version", PyVal.str "1.0")])]).discover_module
        ["gpu"]).2 := by
  have hth := discover_subset_and_exclusion
    [("vision", [("capabilities", PyVal.strList ["detect"]),
                 ("version", PyVal.str "1.0")])]
    "vision"
    [("capabilities", PyVal.strList ["detect"]), ("version", PyVal.str "1.0")]
    ["capabilities"] ["gpu"] "gpu" (by decide)
  exact ⟨hth.1 (by decide), hth.2 (by decide) (by decide)⟩

theorem operations_touch_only_own_state_witness :
    ((MiddlewareManager.init.register_module "a" []).1.analytics
        = MiddlewareManager.init.analytics)
    ∧ (dictGet (MiddlewareManager.init.register_module "a" []).1.modules "b"
        = dictGet MiddlewareManager.init.modules "b")
    ∧ ((MiddlewareManager.init.discover_module ["x"]).1 = MiddlewareManager.init)
    ∧ ((MiddlewareManager.init.route_request "a" "b" 3).1.modules
        = MiddlewareManager.init.modules) :=
  operations_touch_only_own_state MiddlewareManager.init "a" [] "b"
    (by decide) ["x"] "a" "b" 3

theorem register_falsy_identifier_witness :
    ModuleRegistry.init.register ⟨some "", none, none, none⟩
      = (ModuleRegistry.init,
         Except.error "Module must have a module_id attribute.") :=
  register_falsy_identifier ModuleRegistry.init ⟨some "", none, none, none⟩ rfl

theorem reregistration_keeps_first_position_witness :
    ((((MiddlewareManager.init.register_module "a" []).1.register_module
        "b" []).1.register_module "a" [("v", PyVal.str "2")]).1.discover_module
        []).2 = ["a", "b"] :=
  reregistration_keeps_first_position "a" "b" [] [] [("v", PyVal.str "2")]
    (by decide)

end Aim
